import Mathlib

/-!
Verification of the `bunsen.mapping` Python module (pgitv/bunsen).

The module wraps three stores of versioned FHIR terminology artifacts:
`ConceptMaps`, `ValueSets` and `Hierarchies`.  The Python layer marshals
tuples into FHIR dstu3 model objects and delegates storage to a JVM
collaborator (`com.cerner.bunsen.mappings.*`) reachable through the spark
bridge.  The Python source under `src/python/bunsen/mapping/__init__.py` is
embedded faithfully below, bug for bug; the JVM collaborator is not part of
the Python sources and is modelled from the specification where a claim
depends on it (each such definition says so in its doc comment).
-/

set_option autoImplicit false

namespace Bunsen

/-! ## FHIR dstu3 equivalence codes

`org.hl7.fhir.dstu3.model.Enumerations.ConceptMapEquivalence` as used by
`_add_mappings_to_map`: `fromCode` maps a code string to the enumerated
value and fails on an unknown code. -/

inductive ConceptMapEquivalence where
  | relatedto
  | equivalent
  | equal
  | wider
  | subsumes
  | narrower
  | specializes
  | inexact
  | unmatched
  | disjoint
  deriving DecidableEq, Repr

def ConceptMapEquivalence.fromCode (code : String) : Except String ConceptMapEquivalence :=
  match code with
  | "relatedto" => .ok .relatedto
  | "equivalent" => .ok .equivalent
  | "equal" => .ok .equal
  | "wider" => .ok .wider
  | "subsumes" => .ok .subsumes
  | "narrower" => .ok .narrower
  | "specializes" => .ok .specializes
  | "inexact" => .ok .inexact
  | "unmatched" => .ok .unmatched
  | "disjoint" => .ok .disjoint
  | _ => .error code

def ConceptMapEquivalence.toCode : ConceptMapEquivalence → String
  | .relatedto => "relatedto"
  | .equivalent => "equivalent"
  | .equal => "equal"
  | .wider => "wider"
  | .subsumes => "subsumes"
  | .narrower => "narrower"
  | .specializes => "specializes"
  | .inexact => "inexact"
  | .unmatched => "unmatched"
  | .disjoint => "disjoint"

/-! ## FHIR model objects built by the Python layer -/

/-- One mapping tuple `(source_system, source_value, target_system,
target_value, equivalence)` as passed to `with_new_map` / `add_mappings`. -/
structure MappingTuple where
  sourceSystem : String
  sourceValue : String
  targetSystem : String
  targetValue : String
  equivalence : Option String
  deriving DecidableEq, Repr

/-- A `ConceptMap.group.element.target`: code plus optional equivalence tag.
The tag is only written when the tuple carries a non-None equivalence. -/
structure MappingTarget where
  code : String
  equivalence : Option ConceptMapEquivalence
  deriving DecidableEq, Repr

/-- A `ConceptMap.group.element`: source code plus its targets. -/
structure MappingElement where
  code : String
  targets : List MappingTarget
  deriving DecidableEq, Repr

/-- A `ConceptMap.group`: a source/target system pair plus its elements. -/
structure MappingGroup where
  source : String
  target : String
  elements : List MappingElement
  deriving DecidableEq, Repr

/-- An `org.hl7.fhir.dstu3.model.ConceptMap` as far as the Python layer
populates it.  `experimental` is an optional field, absent until
`setExperimental` is called. -/
structure ConceptMap where
  url : String
  version : String
  source : String
  target : String
  experimental : Option Bool
  groups : List MappingGroup
  deriving DecidableEq, Repr

/-! ## Insertion-ordered grouping

`_add_mappings_to_map` and `_add_values_to_value_set` both group a list of
tuples with `collections.defaultdict(list)` and then iterate `.items()`.
Python dicts iterate in key-insertion order, so the groups appear in order
of first occurrence of their key and each group keeps the relative order of
its entries.  `insertGrouped` is one loop step (append the value to the
existing group for the key, or open a new group at the end). -/

def insertGrouped {κ α : Type} [DecidableEq κ] :
    List (κ × List α) → κ → α → List (κ × List α)
  | [], k, v => [(k, [v])]
  | (k', vs) :: rest, k, v =>
    if k = k' then (k', vs ++ [v]) :: rest
    else (k', vs) :: insertGrouped rest k v

/-- `groups = collections.defaultdict(list); for kv in xs: groups[k].append(v)`
followed by iteration over `groups.items()`. -/
def groupPairs {κ α : Type} [DecidableEq κ] (xs : List (κ × α)) : List (κ × List α) :=
  xs.foldl (fun acc kv => insertGrouped acc kv.1 kv.2) []

/-! ## `_add_mappings_to_map`

```
for (ss, sv, ts, tv, eq) in mappings:
    groups[(ss,ts)].append((sv,tv,eq))
for (source_system, target_system), values in groups.items():
    group = concept_map.addGroup() ... setSource/setTarget
    for (source_value, target_value, equivalence) in values:
        element = group.addElement(); element.setCode(source_value)
        target = element.addTarget(); target.setCode(target_value)
        if equivalence is not None:
            target.setEquivalence(ConceptMapEquivalence.fromCode(equivalence))
```
`fromCode` raises on an unknown code, hence the `Except`. -/

def buildTarget (targetValue : String) (equivalence : Option String) :
    Except String MappingTarget :=
  match equivalence with
  | none => .ok { code := targetValue, equivalence := none }
  | some c => (ConceptMapEquivalence.fromCode c).map
      fun e => { code := targetValue, equivalence := some e }

def buildElement (v : String × String × Option String) : Except String MappingElement := do
  let t ← buildTarget v.2.1 v.2.2
  pure { code := v.1, targets := [t] }

/-- The inner loop of `_add_mappings_to_map`: one element per value tuple,
in order. -/
def buildElements : List (String × String × Option String) →
    Except String (List MappingElement)
  | [] => .ok []
  | v :: vs => do
    let e ← buildElement v
    let es ← buildElements vs
    pure (e :: es)

def buildGroup (key : String × String) (values : List (String × String × Option String)) :
    Except String MappingGroup := do
  let es ← buildElements values
  pure { source := key.1, target := key.2, elements := es }

/-- The outer loop of `_add_mappings_to_map`: one group per `groups.items()`
entry, in insertion order. -/
def buildGroups : List ((String × String) × List (String × String × Option String)) →
    Except String (List MappingGroup)
  | [] => .ok []
  | kv :: rest => do
    let g ← buildGroup kv.1 kv.2
    let gs ← buildGroups rest
    pure (g :: gs)

/-- Split a mapping tuple into the grouping key and the per-entry value, as
the first loop of `_add_mappings_to_map` does. -/
def MappingTuple.keyed (m : MappingTuple) :
    (String × String) × (String × String × Option String) :=
  ((m.sourceSystem, m.targetSystem), (m.sourceValue, m.targetValue, m.equivalence))

def add_mappings_to_map (cm : ConceptMap) (mappings : List MappingTuple) :
    Except String ConceptMap := do
  let groups := groupPairs (mappings.map MappingTuple.keyed)
  let gs ← buildGroups groups
  pure { cm with groups := cm.groups ++ gs }

/-! ## Errors

`StoreError` covers the typed failures of the spec (§7); `PyError` covers
the exceptions the Python interpreter itself raises when the source code
references unbound names or calls functions with missing arguments. -/

inductive StoreError where
  | notFoundError
  | duplicateArtifactError
  | invalidEquivalenceCode (code : String)
  deriving DecidableEq, Repr

inductive PyError where
  | nameError (name : String)
  | typeError (msg : String)
  deriving DecidableEq, Repr

/-! ## ConceptMaps store -/

/-- Modelled from the spec: the JVM collaborator
`com.cerner.bunsen.mappings.ConceptMaps` is absent from the Python sources;
per spec §2–§3 a store is an immutable collection of versioned concept maps
(metadata table plus content table, here recovered as projections of the
map list). -/
structure ConceptMaps where
  maps : List ConceptMap
  deriving DecidableEq, Repr

/-- Metadata of a map as exposed by `get_maps` (content excluded). -/
structure MapMetadata where
  url : String
  version : String
  source : String
  target : String
  experimental : Option Bool
  deriving DecidableEq, Repr

def ConceptMap.metadata (cm : ConceptMap) : MapMetadata :=
  { url := cm.url, version := cm.version, source := cm.source,
    target := cm.target, experimental := cm.experimental }

/-- One flattened mapping row of the content table, tagged with the owning
url and version. -/
structure MappingRow where
  url : String
  version : String
  sourceSystem : String
  sourceValue : String
  targetSystem : String
  targetValue : String
  equivalence : Option ConceptMapEquivalence
  deriving DecidableEq, Repr

/-- The content rows contributed by a list of groups under a given owning
url and version. -/
def groupsRows (url version : String) (gs : List MappingGroup) : List MappingRow :=
  gs.flatMap fun g => g.elements.flatMap fun e => e.targets.map fun t =>
    { url := url, version := version, sourceSystem := g.source,
      sourceValue := e.code, targetSystem := g.target, targetValue := t.code,
      equivalence := t.equivalence }

/-- Modelled from the spec: the JVM side flattens a concept map into one
content row per group element target, each tagged with the owning
url/version (§4.1 `get_mappings`, §6 content table schema). -/
def ConceptMap.rows (cm : ConceptMap) : List MappingRow :=
  groupsRows cm.url cm.version cm.groups

/-- Modelled from the spec: `getMappings` on the JVM store is the
concatenated content table of all maps in the store. -/
def ConceptMaps.getMappings (s : ConceptMaps) : List MappingRow :=
  s.maps.flatMap ConceptMap.rows

/-- Modelled from the spec: `getConceptMap(url, version)` retrieves the
stored artifact with that identity and raises NotFoundError when the
`(url, version)` pair is absent (§7). -/
def ConceptMaps.getConceptMap (s : ConceptMaps) (url version : String) :
    Except StoreError ConceptMap :=
  match s.maps.find? (fun m => m.url == url && m.version == version) with
  | some cm => .ok cm
  | none => .error .notFoundError

/-- Modelled from the spec: `withConceptMaps` merges a map into the store;
re-adding an existing `(url, version)` pair is last-writer-wins at map
granularity (§3 invariants), so the prior artifact with that identity is
replaced and the new one appended. -/
def ConceptMaps.withConceptMaps (s : ConceptMaps) (cm : ConceptMap) : ConceptMaps :=
  { maps := s.maps.filter (fun m => !(m.url == cm.url && m.version == cm.version)) ++ [cm] }

/-- `ConceptMaps.get_maps`: the metadata dataset, without mapping content. -/
def ConceptMaps.get_maps (s : ConceptMaps) : List MapMetadata :=
  s.maps.map ConceptMap.metadata

/-- `ConceptMaps.latest_version`: the body is
`df = get_maps().where(df.url == functions.lit(url))`, but no global named
`get_maps` exists (the module-level helpers are `get_concept_maps` etc. and
bare names do not resolve to methods), so every call raises NameError
before the store is consulted; the later lines (`resuls`, `.min`) are never
reached. -/
def ConceptMaps.latest_version (_s : ConceptMaps) (_url : String) :
    Except PyError (Option String) :=
  .error (.nameError "get_maps")

/-- The behaviour the spec mandates for `latest_version` (§4.1): filter the
metadata rows by url, then take the lexicographic max of the version
strings, None when nothing matches. -/
def ConceptMaps.latest_version_spec (s : ConceptMaps) (url : String) : Option String :=
  ((s.maps.filter (fun m => m.url == url)).map ConceptMap.version).max?

/-- `ConceptMaps.get_mappings(url=None, version=None)`: the flattened rows,
filtered by url when given, then by version when given. -/
def ConceptMaps.get_mappings (s : ConceptMaps) (url version : Option String) :
    List MappingRow :=
  let df := s.getMappings
  let df := match url with
    | some u => df.filter (fun r => r.url == u)
    | none => df
  match version with
  | some v => df.filter (fun r => r.version == v)
  | none => df

/-- The fresh `org.hl7.fhir.dstu3.model.ConceptMap()` built by
`with_new_map`: url, version, source and target are set; `setExperimental(True)`
runs only under `if (experimental):`, so a falsy argument leaves the field
unset. -/
def newConceptMap (url version source target : String) (experimental : Bool) :
    ConceptMap :=
  { url := url, version := version, source := source, target := target,
    experimental := if experimental then some true else none, groups := [] }

/-- `ConceptMaps.with_new_map`: build a fresh map from the arguments, add
the grouped mappings to it, and merge the singleton list into the store. -/
def ConceptMaps.with_new_map (s : ConceptMaps) (url version source target : String)
    (experimental : Bool) (mappings : List MappingTuple) :
    Except StoreError ConceptMaps :=
  let cm := newConceptMap url version source target experimental
  match add_mappings_to_map cm mappings with
  | .error c => .error (.invalidEquivalenceCode c)
  | .ok cm => .ok (s.withConceptMaps cm)

/-- `ConceptMaps.add_mappings`: fetch the existing map for `(url, version)`
(NotFoundError when absent), append the grouped mappings to it, and merge
the updated singleton back into the store. -/
def ConceptMaps.add_mappings (s : ConceptMaps) (url version : String)
    (mappings : List MappingTuple) : Except StoreError ConceptMaps :=
  match s.getConceptMap url version with
  | .error e => .error e
  | .ok cm =>
    match add_mappings_to_map cm mappings with
    | .error c => .error (.invalidEquivalenceCode c)
    | .ok cm => .ok (s.withConceptMaps cm)

/-! ## Timestamps

`_add_values_to_value_set` stamps each inclusion clause with
`datetime.datetime.now().replace(microsecond=0).isoformat(sep=' ')`.  The
wall clock is embedded as an explicit `Timestamp` argument of second
precision (the `replace(microsecond=0)` truncation), threaded to the
operations that read it. -/

structure Timestamp where
  year : Nat
  month : Nat
  day : Nat
  hour : Nat
  minute : Nat
  second : Nat
  deriving DecidableEq, Repr

def pad2 (n : Nat) : String :=
  if n < 10 then "0" ++ toString n else toString n

def pad4 (n : Nat) : String :=
  if n < 10 then "000" ++ toString n
  else if n < 100 then "00" ++ toString n
  else if n < 1000 then "0" ++ toString n
  else toString n

/-- `isoformat(sep=' ')` of a microsecond-free datetime:
`YYYY-MM-DD HH:MM:SS`. -/
def Timestamp.isoformat (t : Timestamp) : String :=
  pad4 t.year ++ "-" ++ pad2 t.month ++ "-" ++ pad2 t.day ++ " " ++
    pad2 t.hour ++ ":" ++ pad2 t.minute ++ ":" ++ pad2 t.second

/-! ## ValueSets store -/

/-- A `ValueSet.compose.include` clause: system, the synthesized version
stamp, and the concept codes added to the clause. -/
structure ValueSetInclusion where
  system : String
  version : String
  concepts : List String
  deriving DecidableEq, Repr

/-- An `org.hl7.fhir.dstu3.model.ValueSet` as far as the Python layer
populates it. -/
structure ValueSet where
  url : String
  version : String
  experimental : Option Bool
  compose : List ValueSetInclusion
  deriving DecidableEq, Repr

/-- `_add_values_to_value_set`: group the `(system, value)` tuples by
system, append one inclusion clause per group to the compose element, and
stamp every clause of this call with the current timestamp (FHIR expects a
non-empty version, so the current datetime is used for ad-hoc value
sets). -/
def add_values_to_value_set (now : Timestamp) (vs : ValueSet)
    (values : List (String × String)) : ValueSet :=
  let inclusions := groupPairs values
  { vs with compose := vs.compose ++ inclusions.map fun kv =>
      { system := kv.1, version := now.isoformat, concepts := kv.2 } }

/-- Modelled from the spec: the JVM collaborator
`com.cerner.bunsen.mappings.ValueSets` is absent from the Python sources;
per spec §2–§3 it is an immutable collection of versioned value sets. -/
structure ValueSets where
  valueSets : List ValueSet
  deriving DecidableEq, Repr

/-- Metadata of a value set as exposed by `get_value_sets`. -/
structure ValueSetMetadata where
  url : String
  version : String
  experimental : Option Bool
  deriving DecidableEq, Repr

def ValueSet.metadata (vs : ValueSet) : ValueSetMetadata :=
  { url := vs.url, version := vs.version, experimental := vs.experimental }

/-- One flattened value row of the content table. -/
structure ValueRow where
  valueSetUri : String
  valueSetVersion : String
  system : String
  systemVersion : String
  value : String
  deriving DecidableEq, Repr

/-- The content rows contributed by a list of inclusion clauses under a
given owning url and version. -/
def inclusionRows (url version : String) (incs : List ValueSetInclusion) : List ValueRow :=
  incs.flatMap fun inc => inc.concepts.map fun code =>
    { valueSetUri := url, valueSetVersion := version,
      system := inc.system, systemVersion := inc.version, value := code }

/-- Modelled from the spec: the JVM side flattens a value set into one
content row per concept code of each inclusion clause, tagged with the
owning url/version (§4.2, §6 content table schema). -/
def ValueSet.rows (vs : ValueSet) : List ValueRow :=
  inclusionRows vs.url vs.version vs.compose

/-- Modelled from the spec: `getValues` on the JVM store is the
concatenated content table of all value sets in the store. -/
def ValueSets.getValues (s : ValueSets) : List ValueRow :=
  s.valueSets.flatMap ValueSet.rows

/-- Modelled from the spec: `getValueSet(url, version)` retrieves the
stored artifact with that identity and raises NotFoundError when the pair
is absent (§7). -/
def ValueSets.getValueSet (s : ValueSets) (url version : String) :
    Except StoreError ValueSet :=
  match s.valueSets.find? (fun vs => vs.url == url && vs.version == version) with
  | some vs => .ok vs
  | none => .error .notFoundError

/-- Modelled from the spec: `withValueSets` merges a value set into the
store, last-writer-wins at value-set granularity (§3 invariants). -/
def ValueSets.withValueSets (s : ValueSets) (vs : ValueSet) : ValueSets :=
  { valueSets :=
      s.valueSets.filter (fun v => !(v.url == vs.url && v.version == vs.version)) ++ [vs] }

/-- `ValueSets.get_value_sets`: the metadata dataset, without value content. -/
def ValueSets.get_value_sets (s : ValueSets) : List ValueSetMetadata :=
  s.valueSets.map ValueSet.metadata

/-- `ValueSets.latest_version`: the body is
`df = get_value_sets().where(df.url == functions.lit(url))`; the bare name
`get_value_sets` resolves to the module-level function
`get_value_sets(spark_session, database)` (not to the method), so the
zero-argument call raises TypeError before the store is consulted; the
later lines (`results[0].min`, `results.count()`) are never reached. -/
def ValueSets.latest_version (_s : ValueSets) (_url : String) :
    Except PyError (Option String) :=
  .error (.typeError "get_value_sets missing 1 required positional argument spark_session")

/-- The behaviour the spec mandates for `latest_version` on value sets. -/
def ValueSets.latest_version_spec (s : ValueSets) (url : String) : Option String :=
  ((s.valueSets.filter (fun vs => vs.url == url)).map ValueSet.version).max?

/-- `ValueSets.get_values(url=None, version=None)`: the flattened rows,
filtered by url when given; the version branch reproduces the source bug:
`df.where(df.valueSetVersion == functions.lit(url))` compares against `url`
rather than `version`, and when `url` is None the SQL comparison against
NULL holds for no row. -/
def ValueSets.get_values (s : ValueSets) (url version : Option String) :
    List ValueRow :=
  let df := s.getValues
  let df := match url with
    | some u => df.filter (fun r => r.valueSetUri == u)
    | none => df
  match version with
  | some _ =>
      df.filter (fun r =>
        match url with
        | some u => r.valueSetVersion == u
        | none => false)
  | none => df

/-- The behaviour the spec mandates for `get_values` (§4.2 mirroring §4.1):
each filter applied independently, against its own argument. -/
def ValueSets.get_values_spec (s : ValueSets) (url version : Option String) :
    List ValueRow :=
  let df := s.getValues
  let df := match url with
    | some u => df.filter (fun r => r.valueSetUri == u)
    | none => df
  match version with
  | some v => df.filter (fun r => r.valueSetVersion == v)
  | none => df

/-- The fresh `org.hl7.fhir.dstu3.model.ValueSet()` built by
`with_new_value_set`: url and version are set; `setExperimental(True)` runs
only under `if (experimental):`. -/
def newValueSet (url version : String) (experimental : Bool) : ValueSet :=
  { url := url, version := version,
    experimental := if experimental then some true else none, compose := [] }

/-- `ValueSets.with_new_value_set`: build a fresh value set from the
arguments, add the grouped values to it, and merge the singleton into the
store. -/
def ValueSets.with_new_value_set (now : Timestamp) (s : ValueSets)
    (url version : String) (experimental : Bool)
    (values : List (String × String)) : ValueSets :=
  let vs := newValueSet url version experimental
  let vs := add_values_to_value_set now vs values
  s.withValueSets vs

/-- `ValueSets.add_values`: fetch the existing value set for
`(url, version)` (NotFoundError when absent), append the grouped values to
it, and merge the updated singleton back into the store. -/
def ValueSets.add_values (now : Timestamp) (s : ValueSets) (url version : String)
    (values : List (String × String)) : Except StoreError ValueSets :=
  match s.getValueSet url version with
  | .error e => .error e
  | .ok vs => .ok (s.withValueSets (add_values_to_value_set now vs values))

/-! ## Hierarchies store -/

/-- One ancestor edge of the materialized transitive closure, tagged with
the owning hierarchy uri and version. -/
structure AncestorRow where
  uri : String
  version : String
  descendantSystem : String
  descendantValue : String
  ancestorSystem : String
  ancestorValue : String
  deriving DecidableEq, Repr

/-- Modelled from the spec: the JVM collaborator
`com.cerner.bunsen.mappings.Hierarchies` is absent from the Python sources;
per spec §2–§4.3 it holds the materialized closure edge set, and
`getAncestors` returns the full content table. -/
structure Hierarchies where
  ancestors : List AncestorRow
  deriving DecidableEq, Repr

/-- `Hierarchies.latest_version`: the body is
`df = get_ancestors().where(df.uri == functions.lit(uri))`, but no global
named `get_ancestors` exists (bare names do not resolve to methods), so
every call raises NameError before the store is consulted. -/
def Hierarchies.latest_version (_s : Hierarchies) (_uri : String) :
    Except PyError (Option String) :=
  .error (.nameError "get_ancestors")

/-- The behaviour the spec mandates for `latest_version` on hierarchies. -/
def Hierarchies.latest_version_spec (s : Hierarchies) (uri : String) : Option String :=
  (((s.ancestors.filter (fun r => r.uri == uri)).map AncestorRow.version).dedup).max?

/-- `Hierarchies.get_ancestors(url=None, version=None)`: the unfiltered
call returns the closure rows, but each filter branch references an
unbound name — `functions.lit(uri)` while the parameter is `url`, and
`functions.lit(veresion)` (misspelled) — so supplying either argument
raises NameError. -/
def Hierarchies.get_ancestors (s : Hierarchies) (url version : Option String) :
    Except PyError (List AncestorRow) :=
  match url with
  | some _ => .error (.nameError "uri")
  | none =>
    match version with
    | some _ => .error (.nameError "veresion")
    | none => .ok s.ancestors

/-- The behaviour the spec mandates for `get_ancestors` (§4.3): the closure
edge set, each filter applied independently when its argument is given. -/
def Hierarchies.get_ancestors_spec (s : Hierarchies) (uri version : Option String) :
    List AncestorRow :=
  let df := s.ancestors
  let df := match uri with
    | some u => df.filter (fun r => r.uri == u)
    | none => df
  match version with
  | some v => df.filter (fun r => r.version == v)
  | none => df

/-! ## Statement helpers -/

/-- Recover the tuple a flattened mapping row came from (the equivalence
enum is rendered back to its code). -/
def MappingRow.toTuple (r : MappingRow) : MappingTuple :=
  { sourceSystem := r.sourceSystem, sourceValue := r.sourceValue,
    targetSystem := r.targetSystem, targetValue := r.targetValue,
    equivalence := r.equivalence.map ConceptMapEquivalence.toCode }

/-- The mapping tuples a single group materializes, in group order. -/
def groupTuples (g : MappingGroup) : List MappingTuple :=
  g.elements.flatMap fun e => e.targets.map fun t =>
    { sourceSystem := g.source, sourceValue := e.code, targetSystem := g.target,
      targetValue := t.code, equivalence := t.equivalence.map ConceptMapEquivalence.toCode }

/-- Flatten a grouped list back into key-value pairs, in grouped order. -/
def joinGroups {κ α : Type} (g : List (κ × List α)) : List (κ × α) :=
  g.flatMap fun kv => kv.2.map (Prod.mk kv.1)

/-- Inverse of `MappingTuple.keyed`. -/
def MappingTuple.unkeyed (kv : (String × String) × (String × String × Option String)) :
    MappingTuple :=
  { sourceSystem := kv.1.1, sourceValue := kv.2.1, targetSystem := kv.1.2,
    targetValue := kv.2.2.1, equivalence := kv.2.2.2 }

/-- The values collected for a key across a grouped list. -/
def valuesFor {κ α : Type} [DecidableEq κ] (k : κ) (g : List (κ × List α)) : List α :=
  (g.filter fun kv => kv.1 = k).flatMap Prod.snd

/-! ## Sample artifacts used by the concrete theorems -/

def sampleMap : ConceptMap :=
  { url := "http://example.org/map", version := "1",
    source := "http://example.org/a", target := "http://example.org/b",
    experimental := some true,
    groups := [{ source := "http://example.org/a", target := "http://example.org/b",
                 elements := [{ code := "A1",
                                targets := [{ code := "B1",
                                              equivalence := some .equivalent }] }] }] }

def sampleValueSet : ValueSet :=
  { url := "http://example.org/vs", version := "1", experimental := some true,
    compose := [{ system := "http://example.org/sys", version := "2017-01-01 00:00:00",
                  concepts := ["c1"] }] }

def sampleEdge : AncestorRow :=
  { uri := "http://example.org/hierarchy", version := "1",
    descendantSystem := "http://example.org/sys", descendantValue := "child",
    ancestorSystem := "http://example.org/sys", ancestorValue := "parent" }

/-! ## Helper lemmas -/

theorem except_bind_ok_iff {ε α β : Type} {e : Except ε α} {f : α → Except ε β} {b : β} :
    (e >>= f) = .ok b ↔ ∃ a, e = .ok a ∧ f a = .ok b := by
  cases e <;> simp [Bind.bind, Except.bind]

theorem except_pure_eq_ok {ε α : Type} (a : α) : (pure a : Except ε α) = .ok a := rfl

theorem fromCode_toCode {c : String} {e : ConceptMapEquivalence}
    (h : ConceptMapEquivalence.fromCode c = .ok e) :
    ConceptMapEquivalence.toCode e = c := by
  unfold ConceptMapEquivalence.fromCode at h
  split at h <;>
    first
      | (injection h with h; subst h; rfl)
      | exact Except.noConfusion h

theorem buildTarget_ok {tv : String} {eq? : Option String} {t : MappingTarget}
    (h : buildTarget tv eq? = .ok t) :
    t.code = tv ∧ t.equivalence.map ConceptMapEquivalence.toCode = eq? := by
  cases eq? with
  | none =>
    simp only [buildTarget] at h
    cases h
    simp
  | some c =>
    simp only [buildTarget] at h
    cases hc : ConceptMapEquivalence.fromCode c with
    | error err => rw [hc] at h; simp [Except.map] at h
    | ok e =>
      rw [hc] at h
      simp only [Except.map] at h
      cases h
      simp [fromCode_toCode hc]

theorem buildElement_ok {v : String × String × Option String} {e : MappingElement}
    (h : buildElement v = .ok e) :
    ∃ t, e = { code := v.1, targets := [t] } ∧ t.code = v.2.1 ∧
      t.equivalence.map ConceptMapEquivalence.toCode = v.2.2 := by
  unfold buildElement at h
  rw [except_bind_ok_iff] at h
  obtain ⟨t, ht, h⟩ := h
  rw [except_pure_eq_ok] at h
  cases h
  obtain ⟨h1, h2⟩ := buildTarget_ok ht
  exact ⟨t, rfl, h1, h2⟩

theorem buildElements_ok {k : String × String}
    {vs : List (String × String × Option String)} {es : List MappingElement}
    (h : buildElements vs = .ok es) :
    (es.flatMap fun e => e.targets.map fun t =>
        ({ sourceSystem := k.1, sourceValue := e.code, targetSystem := k.2,
           targetValue := t.code,
           equivalence := t.equivalence.map ConceptMapEquivalence.toCode } : MappingTuple)) =
      vs.map fun v => MappingTuple.unkeyed (k, v) := by
  induction vs generalizing es with
  | nil =>
    simp only [buildElements] at h
    cases h
    simp
  | cons v vs ih =>
    simp only [buildElements] at h
    rw [except_bind_ok_iff] at h
    obtain ⟨e, he, h⟩ := h
    rw [except_bind_ok_iff] at h
    obtain ⟨es', hes, h⟩ := h
    rw [except_pure_eq_ok] at h
    cases h
    obtain ⟨t, rfl, h1, h2⟩ := buildElement_ok he
    simp [ih hes, h1, h2, MappingTuple.unkeyed]

theorem buildGroup_ok {k : String × String}
    {vs : List (String × String × Option String)} {g : MappingGroup}
    (h : buildGroup k vs = .ok g) :
    g.source = k.1 ∧ g.target = k.2 ∧
      groupTuples g = vs.map fun v => MappingTuple.unkeyed (k, v) := by
  unfold buildGroup at h
  rw [except_bind_ok_iff] at h
  obtain ⟨es, hes, h⟩ := h
  rw [except_pure_eq_ok] at h
  cases h
  exact ⟨rfl, rfl, buildElements_ok hes⟩

theorem buildGroups_ok {groups : List ((String × String) × List (String × String × Option String))}
    {gs : List MappingGroup} (h : buildGroups groups = .ok gs) :
    gs.flatMap groupTuples = (joinGroups groups).map MappingTuple.unkeyed := by
  induction groups generalizing gs with
  | nil =>
    simp only [buildGroups] at h
    cases h
    simp [joinGroups]
  | cons kv rest ih =>
    simp only [buildGroups] at h
    rw [except_bind_ok_iff] at h
    obtain ⟨g, hg, h⟩ := h
    rw [except_bind_ok_iff] at h
    obtain ⟨gs', hgs, h⟩ := h
    rw [except_pure_eq_ok] at h
    cases h
    obtain ⟨-, -, h3⟩ := buildGroup_ok hg
    simp [joinGroups, ih hgs, h3, List.map_map, Function.comp]

theorem add_mappings_to_map_ok {cm cm' : ConceptMap} {ms : List MappingTuple}
    (h : add_mappings_to_map cm ms = .ok cm') :
    ∃ gs, buildGroups (groupPairs (ms.map MappingTuple.keyed)) = .ok gs ∧
      cm' = { cm with groups := cm.groups ++ gs } := by
  unfold add_mappings_to_map at h
  rw [except_bind_ok_iff] at h
  obtain ⟨gs, hgs, h⟩ := h
  rw [except_pure_eq_ok] at h
  cases h
  exact ⟨gs, hgs, rfl⟩

theorem joinGroups_nil {κ α : Type} : joinGroups ([] : List (κ × List α)) = [] := rfl

theorem joinGroups_cons {κ α : Type} (k : κ) (vs : List α) (rest : List (κ × List α)) :
    joinGroups ((k, vs) :: rest) = vs.map (Prod.mk k) ++ joinGroups rest := by
  simp [joinGroups]

theorem joinGroups_insertGrouped {κ α : Type} [DecidableEq κ]
    (acc : List (κ × List α)) (k : κ) (v : α) :
    List.Perm (joinGroups (insertGrouped acc k v)) (joinGroups acc ++ [(k, v)]) := by
  induction acc with
  | nil => simp [insertGrouped, joinGroups]
  | cons kv rest ih =>
    obtain ⟨k', vs⟩ := kv
    by_cases hk : k = k'
    · subst hk
      rw [insertGrouped, if_pos rfl, joinGroups_cons, joinGroups_cons, List.map_append,
        List.append_assoc, List.append_assoc]
      simp only [List.map_cons, List.map_nil]
      exact List.Perm.append_left _ List.perm_append_comm
    · rw [insertGrouped, if_neg hk, joinGroups_cons, joinGroups_cons, List.append_assoc]
      exact List.Perm.append_left _ ih

theorem joinGroups_groupPairs {κ α : Type} [DecidableEq κ] (xs : List (κ × α)) :
    List.Perm (joinGroups (groupPairs xs)) xs := by
  suffices h : ∀ acc : List (κ × List α),
      List.Perm
        (joinGroups (xs.foldl (fun acc kv => insertGrouped acc kv.1 kv.2) acc))
        (joinGroups acc ++ xs) by
    simpa [groupPairs, joinGroups] using h []
  induction xs with
  | nil => intro acc; simp
  | cons kv xs ih =>
    intro acc
    simp only [List.foldl_cons]
    refine (ih (insertGrouped acc kv.1 kv.2)).trans ?_
    refine ((joinGroups_insertGrouped acc kv.1 kv.2).append_right xs).trans ?_
    simp [List.append_assoc]

theorem keys_insertGrouped {κ α : Type} [DecidableEq κ]
    (acc : List (κ × List α)) (k : κ) (v : α) :
    (insertGrouped acc k v).map Prod.fst =
      if k ∈ acc.map Prod.fst then acc.map Prod.fst
      else acc.map Prod.fst ++ [k] := by
  induction acc with
  | nil => simp [insertGrouped]
  | cons kv rest ih =>
    obtain ⟨k', vs⟩ := kv
    by_cases hk : k = k'
    · subst hk; simp [insertGrouped]
    · by_cases hmem : k ∈ rest.map Prod.fst <;>
        simp [insertGrouped, if_neg hk, ih, hmem, Ne.symm hk, hk]

theorem keysNodup_insertGrouped {κ α : Type} [DecidableEq κ]
    {acc : List (κ × List α)} (h : (acc.map Prod.fst).Nodup) (k : κ) (v : α) :
    ((insertGrouped acc k v).map Prod.fst).Nodup := by
  rw [keys_insertGrouped]
  split
  · exact h
  · next hk => simp [List.nodup_append, h, hk]

theorem keysNodup_groupPairs {κ α : Type} [DecidableEq κ] (xs : List (κ × α)) :
    ((groupPairs xs).map Prod.fst).Nodup := by
  suffices h : ∀ acc : List (κ × List α), (acc.map Prod.fst).Nodup →
      ((xs.foldl (fun acc kv => insertGrouped acc kv.1 kv.2) acc).map Prod.fst).Nodup by
    exact h [] (by simp)
  induction xs with
  | nil => intro acc hacc; simpa using hacc
  | cons kv xs ih =>
    intro acc hacc
    simp only [List.foldl_cons]
    exact ih _ (keysNodup_insertGrouped hacc kv.1 kv.2)

theorem valuesFor_nil {κ α : Type} [DecidableEq κ] (k : κ) :
    valuesFor k ([] : List (κ × List α)) = [] := rfl

theorem valuesFor_cons {κ α : Type} [DecidableEq κ] (k k₀ : κ) (vs : List α)
    (rest : List (κ × List α)) :
    valuesFor k ((k₀, vs) :: rest) =
      (if k₀ = k then vs else []) ++ valuesFor k rest := by
  by_cases h : k₀ = k <;> simp [valuesFor, List.filter_cons, h]

theorem valuesFor_of_not_mem {κ α : Type} [DecidableEq κ] {k : κ}
    {g : List (κ × List α)} (h : k ∉ g.map Prod.fst) : valuesFor k g = [] := by
  unfold valuesFor
  rw [List.filter_eq_nil_iff.mpr]
  · rfl
  · intro kv hkv
    simp only [decide_eq_true_eq]
    intro hk
    exact h (List.mem_map.mpr ⟨kv, hkv, hk⟩)

theorem valuesFor_insertGrouped {κ α : Type} [DecidableEq κ]
    {acc : List (κ × List α)} (hacc : (acc.map Prod.fst).Nodup)
    (k k' : κ) (v : α) :
    valuesFor k (insertGrouped acc k' v) =
      valuesFor k acc ++ if k' = k then [v] else [] := by
  induction acc with
  | nil =>
    rw [insertGrouped, valuesFor_cons]
    by_cases hk : k' = k <;> simp [hk, valuesFor_nil]
  | cons kv rest ih =>
    obtain ⟨k₀, vs⟩ := kv
    simp only [List.map_cons, List.nodup_cons] at hacc
    obtain ⟨hk₀, hrest⟩ := hacc
    by_cases hk : k' = k₀
    · subst hk
      rw [insertGrouped, if_pos rfl, valuesFor_cons, valuesFor_cons]
      by_cases hk2 : k' = k
      · subst hk2
        rw [if_pos rfl, if_pos rfl, valuesFor_of_not_mem hk₀]
        simp
      · rw [if_neg hk2, if_neg hk2]
        simp [hk2]
    · rw [insertGrouped, if_neg hk, valuesFor_cons, valuesFor_cons, ih hrest,
        List.append_assoc]

theorem valuesFor_foldl {κ α : Type} [DecidableEq κ] (xs : List (κ × α)) :
    ∀ acc : List (κ × List α), (acc.map Prod.fst).Nodup → ∀ k,
      valuesFor k (xs.foldl (fun acc kv => insertGrouped acc kv.1 kv.2) acc) =
        valuesFor k acc ++ (xs.filter fun kv => kv.1 = k).map Prod.snd := by
  induction xs with
  | nil => intro acc hacc k; simp
  | cons kv xs ih =>
    intro acc hacc k
    simp only [List.foldl_cons]
    rw [ih _ (keysNodup_insertGrouped hacc kv.1 kv.2) k,
      valuesFor_insertGrouped hacc k kv.1 kv.2]
    by_cases hk : kv.1 = k <;> simp [List.filter_cons, hk, List.append_assoc]

theorem valuesFor_groupPairs {κ α : Type} [DecidableEq κ] (xs : List (κ × α)) (k : κ) :
    valuesFor k (groupPairs xs) = (xs.filter fun kv => kv.1 = k).map Prod.snd := by
  have h := valuesFor_foldl xs [] (by simp) k
  rw [valuesFor_nil, List.nil_append] at h
  exact h

theorem valuesFor_of_mem {κ α : Type} [DecidableEq κ]
    {g : List (κ × List α)} {k : κ} {vs : List α}
    (hnd : (g.map Prod.fst).Nodup) (h : (k, vs) ∈ g) : valuesFor k g = vs := by
  induction g with
  | nil => cases h
  | cons kv rest ih =>
    obtain ⟨k₀, vs₀⟩ := kv
    simp only [List.map_cons, List.nodup_cons] at hnd
    obtain ⟨hk₀, hrest⟩ := hnd
    rcases List.mem_cons.mp h with heq | hmem
    · cases heq
      rw [valuesFor_cons, if_pos rfl, valuesFor_of_not_mem hk₀, List.append_nil]
    · have hk : k₀ ≠ k := by
        intro hke
        subst hke
        exact hk₀ (List.mem_map.mpr ⟨(k₀, vs), hmem, rfl⟩)
      rw [valuesFor_cons, if_neg hk, List.nil_append]
      exact ih hrest hmem

theorem mem_groupPairs_eq_filter {κ α : Type} [DecidableEq κ]
    {xs : List (κ × α)} {k : κ} {vs : List α} (h : (k, vs) ∈ groupPairs xs) :
    vs = (xs.filter fun kv => kv.1 = k).map Prod.snd := by
  rw [← valuesFor_groupPairs, valuesFor_of_mem (keysNodup_groupPairs xs) h]

theorem groupsRows_append (url version : String) (g1 g2 : List MappingGroup) :
    groupsRows url version (g1 ++ g2) =
      groupsRows url version g1 ++ groupsRows url version g2 := by
  simp [groupsRows]

theorem groupsRows_map_toTuple (url version : String) (gs : List MappingGroup) :
    (groupsRows url version gs).map MappingRow.toTuple = gs.flatMap groupTuples := by
  simp [groupsRows, groupTuples, List.map_flatMap, List.map_map]
  rfl

theorem mem_groupsRows {url version : String} {gs : List MappingGroup} {r : MappingRow}
    (h : r ∈ groupsRows url version gs) : r.url = url ∧ r.version = version := by
  simp only [groupsRows, List.mem_flatMap, List.mem_map] at h
  obtain ⟨g, -, h⟩ := h
  obtain ⟨e, -, h⟩ := h
  obtain ⟨t, -, rfl⟩ := h
  exact ⟨rfl, rfl⟩

theorem inclusionRows_append (url version : String) (i1 i2 : List ValueSetInclusion) :
    inclusionRows url version (i1 ++ i2) =
      inclusionRows url version i1 ++ inclusionRows url version i2 := by
  simp [inclusionRows]

theorem isoformat_ne_empty (t : Timestamp) : t.isoformat ≠ "" := by
  intro h
  have hd := congrArg String.data h
  simp [Timestamp.isoformat, String.data_append] at hd

theorem perm_cons_filter_not {α : Type} {l : List α} {p : α → Bool} {a : α}
    (h : l.filter p = [a]) : List.Perm l (a :: l.filter fun x => !(p x)) := by
  have hp := (List.filter_append_perm p l).symm
  rw [h] at hp
  simpa using hp

theorem find_eq_of_filter_singleton {α : Type} {l : List α} {p : α → Bool} {a : α}
    (h : l.filter p = [a]) : l.find? p = some a := by
  induction l with
  | nil => simp at h
  | cons x xs ih =>
    by_cases hp : p x
    · rw [List.filter_cons_of_pos hp] at h
      injection h with h1 h2
      subst h1
      exact List.find?_cons_of_pos xs hp
    · rw [List.filter_cons_of_neg hp] at h
      rw [List.find?_cons_of_neg xs hp]
      exact ih h

/-! ## Claim theorems -/

/-- Claim C1: the claim says `latest_version(url)` returns None when no
metadata row matches and the max version string otherwise, never raising
for the nothing-found case.  The code disagrees: in all three classes the
body references an unbound or wrongly-bound name
(`get_maps` / `get_value_sets` without its required argument /
`get_ancestors`), so every call raises before consulting the store — also
on a store that does hold a matching row.  The spec-mandated behaviour
(`latest_version_spec`) would return the max after filtering, and None on
no match. -/
theorem C1_latest_version_always_raises :
    ConceptMaps.latest_version ⟨[sampleMap]⟩ "http://example.org/map" =
        .error (.nameError "get_maps") ∧
    ConceptMaps.latest_version ⟨[]⟩ "http://example.org/absent" =
        .error (.nameError "get_maps") ∧
    ValueSets.latest_version ⟨[sampleValueSet]⟩ "http://example.org/vs" =
        .error (.typeError
          "get_value_sets missing 1 required positional argument spark_session") ∧
    Hierarchies.latest_version ⟨[sampleEdge]⟩ "http://example.org/hierarchy" =
        .error (.nameError "get_ancestors") ∧
    ConceptMaps.latest_version_spec ⟨[sampleMap]⟩ "http://example.org/map" = some "1" ∧
    ConceptMaps.latest_version_spec ⟨[]⟩ "http://example.org/absent" = none :=
  ⟨rfl, rfl, rfl, rfl, by decide, rfl⟩

/-- Claim C2: the claim says `get_values(url, version)` filters the value
rows by url and by version independently.  The code's version branch
compares `df.valueSetVersion` against `functions.lit(url)` (not `version`),
so on a store holding exactly the requested row the call returns nothing —
both when url is supplied (version compared to the url) and when url is
None (comparison against SQL NULL).  `get_values_spec` is the behaviour the
claim describes. -/
theorem C2_get_values_version_filter_compares_url :
    ValueSets.get_values ⟨[sampleValueSet]⟩ (some "http://example.org/vs") (some "1") = [] ∧
    ValueSets.get_values ⟨[sampleValueSet]⟩ none (some "1") = [] ∧
    ValueSets.get_values_spec ⟨[sampleValueSet]⟩ (some "http://example.org/vs") (some "1") =
      [{ valueSetUri := "http://example.org/vs", valueSetVersion := "1",
         system := "http://example.org/sys", systemVersion := "2017-01-01 00:00:00",
         value := "c1" }] := by
  refine ⟨by decide, rfl, by decide⟩

/-- Claim C3: the claim says `get_ancestors(uri, version)` returns the
closure edges, optionally filtered, and that supplying a filter argument
never causes a failure.  The code's filter branches reference the unbound
names `uri` (the parameter is `url`) and `veresion` (misspelled), so
supplying either argument raises NameError; only the unfiltered call
returns rows.  `get_ancestors_spec` is the behaviour the claim
describes. -/
theorem C3_get_ancestors_filter_raises :
    Hierarchies.get_ancestors ⟨[sampleEdge]⟩ (some "http://example.org/hierarchy") none =
        .error (.nameError "uri") ∧
    Hierarchies.get_ancestors ⟨[sampleEdge]⟩ none (some "1") =
        .error (.nameError "veresion") ∧
    Hierarchies.get_ancestors ⟨[sampleEdge]⟩ none none = .ok [sampleEdge] ∧
    Hierarchies.get_ancestors_spec ⟨[sampleEdge]⟩
        (some "http://example.org/hierarchy") (some "1") = [sampleEdge] :=
  ⟨rfl, rfl, rfl, by decide⟩

/-- Claim C6 counterexample: the claim says `with_new_map` (and
`with_new_value_set`) on an already-present `(url, version)` fails with
DuplicateArtifactError.  On a store holding `sampleMap` at
`("http://example.org/map", "1")`, re-adding that identity succeeds and
replaces the stored artifact with the freshly built one — no error is
raised. -/
theorem C6_counterexample_duplicate_accepted :
    ConceptMaps.with_new_map ⟨[sampleMap]⟩ "http://example.org/map" "1"
        "http://example.org/a" "http://example.org/b" true [] =
      .ok ⟨[newConceptMap "http://example.org/map" "1" "http://example.org/a"
              "http://example.org/b" true]⟩ ∧
    ValueSets.with_new_value_set ⟨2018, 1, 1, 0, 0, 0⟩ ⟨[sampleValueSet]⟩
        "http://example.org/vs" "1" true [] =
      ⟨[newValueSet "http://example.org/vs" "1" true]⟩ := by
  refine ⟨rfl, by decide⟩

/-- Claim C9: in the constructed concept map, a tuple whose equivalence
component is None yields a target with no equivalence tag, and a tuple
carrying a code yields a target tagged with the enumerated value
`fromCode` assigns to that code. -/
theorem C9_equivalence_tag_optional :
    (∀ (cm : ConceptMap) (ss sv ts tv : String),
      add_mappings_to_map cm [⟨ss, sv, ts, tv, none⟩] =
        .ok { cm with groups := cm.groups ++
          [{ source := ss, target := ts,
             elements := [{ code := sv,
                            targets := [{ code := tv, equivalence := none }] }] }] }) ∧
    (∀ (cm : ConceptMap) (ss sv ts tv c : String) (e : ConceptMapEquivalence),
      ConceptMapEquivalence.fromCode c = .ok e →
      add_mappings_to_map cm [⟨ss, sv, ts, tv, some c⟩] =
        .ok { cm with groups := cm.groups ++
          [{ source := ss, target := ts,
             elements := [{ code := sv,
                            targets := [{ code := tv, equivalence := some e }] }] }] }) := by
  constructor
  · intro cm ss sv ts tv
    rfl
  · intro cm ss sv ts tv c e h
    have ht : buildTarget tv (some c) = .ok { code := tv, equivalence := some e } := by
      rw [buildTarget, h]
      rfl
    simp only [add_mappings_to_map, List.map_cons, List.map_nil, MappingTuple.keyed,
      groupPairs, List.foldl_cons, List.foldl_nil, insertGrouped,
      buildGroups, buildGroup, buildElements, buildElement, ht,
      Bind.bind, Except.bind, pure, Except.pure]

/-- Claim C9 witness: the theorem applied to a concrete map and concrete
tuples, with the `fromCode` hypothesis discharged at the code
`equivalent`. -/
theorem C9_witness :
    add_mappings_to_map sampleMap
        [⟨"http://example.org/a", "A2", "http://example.org/b", "B2", none⟩] =
      .ok { sampleMap with groups := sampleMap.groups ++
        [{ source := "http://example.org/a", target := "http://example.org/b",
           elements := [{ code := "A2",
                          targets := [{ code := "B2", equivalence := none }] }] }] } ∧
    add_mappings_to_map sampleMap
        [⟨"http://example.org/a", "A3", "http://example.org/b", "B3",
          some "equivalent"⟩] =
      .ok { sampleMap with groups := sampleMap.groups ++
        [{ source := "http://example.org/a", target := "http://example.org/b",
           elements := [{ code := "A3",
                          targets := [{ code := "B3",
                                        equivalence := some .equivalent }] }] }] } :=
  ⟨C9_equivalence_tag_optional.1 sampleMap "http://example.org/a" "A2"
      "http://example.org/b" "B2",
   C9_equivalence_tag_optional.2 sampleMap "http://example.org/a" "A3"
      "http://example.org/b" "B3" "equivalent" .equivalent rfl⟩

/-- Claim C10: the experimental flag of a freshly constructed artifact is
set to True exactly when the argument is truthy, and left unset (not set to
False) otherwise — observed on the artifact the new store ends with. -/
theorem C10_experimental_set_only_when_truthy :
    (∀ (s : ConceptMaps) (url version source target : String) (exp : Bool)
        (ms : List MappingTuple) (s' : ConceptMaps),
      s.with_new_map url version source target exp ms = .ok s' →
      ∃ cm, s'.maps.getLast? = some cm ∧ cm.url = url ∧ cm.version = version ∧
        cm.experimental = if exp then some true else none) ∧
    (∀ (now : Timestamp) (s : ValueSets) (url version : String) (exp : Bool)
        (values : List (String × String)),
      ∃ vs, (ValueSets.with_new_value_set now s url version exp values).valueSets.getLast? =
          some vs ∧ vs.url = url ∧ vs.version = version ∧
        vs.experimental = if exp then some true else none) := by
  constructor
  · intro s url version source target exp ms s' h
    rw [ConceptMaps.with_new_map] at h
    cases hm : add_mappings_to_map (newConceptMap url version source target exp) ms with
    | error c => rw [hm] at h; exact absurd h (by simp)
    | ok cm =>
      rw [hm] at h
      injection h with h
      subst h
      obtain ⟨gs, -, rfl⟩ := add_mappings_to_map_ok hm
      refine ⟨{ newConceptMap url version source target exp with
          groups := (newConceptMap url version source target exp).groups ++ gs },
        ?_, rfl, rfl, rfl⟩
      simp [ConceptMaps.withConceptMaps]
  · intro now s url version exp values
    refine ⟨add_values_to_value_set now (newValueSet url version exp) values,
      ?_, rfl, rfl, rfl⟩
    simp [ValueSets.with_new_value_set, ValueSets.withValueSets]

/-- Claim C10 witness: the theorem applied with a truthy and a falsy
experimental argument on concrete stores. -/
theorem C10_witness :
    (∃ cm, (ConceptMaps.withConceptMaps ⟨[]⟩
          (newConceptMap "http://example.org/m" "1" "http://example.org/a"
            "http://example.org/b" false)).maps.getLast? = some cm ∧
        cm.url = "http://example.org/m" ∧ cm.version = "1" ∧
        cm.experimental = if false then some true else none) ∧
    (∃ vs, (ValueSets.with_new_value_set ⟨2018, 1, 1, 0, 0, 0⟩ ⟨[]⟩
          "http://example.org/v" "1" true []).valueSets.getLast? = some vs ∧
        vs.url = "http://example.org/v" ∧ vs.version = "1" ∧
        vs.experimental = if true then some true else none) :=
  ⟨C10_experimental_set_only_when_truthy.1 ⟨[]⟩ "http://example.org/m" "1"
      "http://example.org/a" "http://example.org/b" false [] _ rfl,
   C10_experimental_set_only_when_truthy.2 ⟨2018, 1, 1, 0, 0, 0⟩ ⟨[]⟩
      "http://example.org/v" "1" true []⟩

/-- Claim C7 counterexample: the claim says the synthesized inclusion
clause versions are distinct per call.  Two `with_new_value_set` calls made
within the same wall-clock second (the stamp has second precision) produce
the identical stamp `2018-01-01 00:00:00`, even with the same system
appearing in both calls. -/
theorem C7_counterexample_same_second_stamp :
    ((ValueSets.with_new_value_set ⟨2018, 1, 1, 0, 0, 0⟩ ⟨[]⟩ "http://example.org/vs1"
          "1" true [("http://example.org/sys", "a")]).valueSets.flatMap
        fun vs => vs.compose.map ValueSetInclusion.version) =
      ["2018-01-01 00:00:00"] ∧
    ((ValueSets.with_new_value_set ⟨2018, 1, 1, 0, 0, 0⟩ ⟨[]⟩ "http://example.org/vs2"
          "2" true [("http://example.org/sys", "b")]).valueSets.flatMap
        fun vs => vs.compose.map ValueSetInclusion.version) =
      ["2018-01-01 00:00:00"] := by
  refine ⟨by decide, by decide⟩

/-- Claim C7 as amended: every inclusion clause appended by
`_add_values_to_value_set` is stamped with the call's clock reading
(ISO format, second precision), which is non-empty and independent of the
value set's own version; clauses of calls sharing a clock reading share the
stamp, so distinctness holds only across distinct seconds, not per
call. -/
theorem C7_stamps_from_clock_reading :
    ∀ (now : Timestamp) (vs : ValueSet) (values : List (String × String)),
      (add_values_to_value_set now vs values).compose =
        vs.compose ++ (groupPairs values).map
          (fun kv => { system := kv.1, version := now.isoformat, concepts := kv.2 }) ∧
      (∀ inc ∈ (add_values_to_value_set now vs values).compose,
        inc ∈ vs.compose ∨ inc.version = now.isoformat) ∧
      now.isoformat ≠ "" ∧
      (∀ w : String, add_values_to_value_set now { vs with version := w } values =
        { add_values_to_value_set now vs values with version := w }) := by
  intro now vs values
  refine ⟨rfl, ?_, isoformat_ne_empty now, fun w => rfl⟩
  intro inc hinc
  rw [add_values_to_value_set] at hinc
  rcases List.mem_append.mp hinc with h | h
  · exact Or.inl h
  · obtain ⟨kv, -, rfl⟩ := List.mem_map.mp h
    exact Or.inr rfl

/-- Claim C7 witness: the amended theorem applied to a concrete call, with
the membership hypothesis of the second conjunct discharged on the single
clause the call appends. -/
theorem C7_witness :
    ({ system := "http://example.org/sys", version := "2018-01-01 00:00:00",
       concepts := ["a"] } : ValueSetInclusion) ∈ sampleValueSet.compose ∨
    ({ system := "http://example.org/sys", version := "2018-01-01 00:00:00",
       concepts := ["a"] } : ValueSetInclusion).version =
      Timestamp.isoformat ⟨2018, 1, 1, 0, 0, 0⟩ :=
  (C7_stamps_from_clock_reading ⟨2018, 1, 1, 0, 0, 0⟩ sampleValueSet
      [("http://example.org/sys", "a")]).2.1
    { system := "http://example.org/sys", version := "2018-01-01 00:00:00",
      concepts := ["a"] }
    (by decide)

/-- Claim C5: `add_mappings` / `add_values` on a `(url, version)` pair with
no stored artifact fail with NotFoundError and never create the artifact;
on an existing pair they append the grouped entries to the artifact's
content and leave its metadata unchanged. -/
theorem C5_add_requires_existing_artifact :
    (∀ (s : ConceptMaps) (url version : String) (ms : List MappingTuple),
      s.maps.find? (fun m => m.url == url && m.version == version) = none →
      s.add_mappings url version ms = .error .notFoundError) ∧
    (∀ (now : Timestamp) (s : ValueSets) (url version : String)
        (values : List (String × String)),
      s.valueSets.find? (fun v => v.url == url && v.version == version) = none →
      ValueSets.add_values now s url version values = .error .notFoundError) ∧
    (∀ (s : ConceptMaps) (url version : String) (ms : List MappingTuple)
        (cm cm' : ConceptMap),
      s.getConceptMap url version = .ok cm →
      add_mappings_to_map cm ms = .ok cm' →
      s.add_mappings url version ms = .ok (s.withConceptMaps cm') ∧
        cm'.metadata = cm.metadata ∧ ∃ gs, cm'.groups = cm.groups ++ gs) ∧
    (∀ (now : Timestamp) (s : ValueSets) (url version : String)
        (values : List (String × String)) (vs : ValueSet),
      s.getValueSet url version = .ok vs →
      ValueSets.add_values now s url version values =
          .ok (s.withValueSets (add_values_to_value_set now vs values)) ∧
        (add_values_to_value_set now vs values).metadata = vs.metadata ∧
        ∃ incs, (add_values_to_value_set now vs values).compose =
          vs.compose ++ incs) := by
  refine ⟨?_, ?_, ?_, ?_⟩
  · intro s url version ms hfind
    rw [ConceptMaps.add_mappings, ConceptMaps.getConceptMap, hfind]
  · intro now s url version values hfind
    rw [ValueSets.add_values, ValueSets.getValueSet, hfind]
  · intro s url version ms cm cm' hget hm
    have hstep : s.add_mappings url version ms =
        match add_mappings_to_map cm ms with
        | .error c => .error (.invalidEquivalenceCode c)
        | .ok cm2 => .ok (s.withConceptMaps cm2) := by
      rw [ConceptMaps.add_mappings, hget]
    obtain ⟨gs, -, hcm'⟩ := add_mappings_to_map_ok hm
    refine ⟨?_, ?_, ?_⟩
    · rw [hstep, hm]
    · rw [hcm']; exact rfl
    · exact ⟨gs, by rw [hcm']⟩
  · intro now s url version values vs hget
    have hstep : ValueSets.add_values now s url version values =
        .ok (s.withValueSets (add_values_to_value_set now vs values)) := by
      rw [ValueSets.add_values, hget]
    exact ⟨hstep, rfl, _, rfl⟩

/-- Claim C5 witness: the theorem applied on an empty store (absent pair)
and on stores holding the sample artifacts (present pair). -/
theorem C5_witness :
    ConceptMaps.add_mappings ⟨[]⟩ "http://example.org/map" "1" [] =
        .error .notFoundError ∧
    ValueSets.add_values ⟨2018, 1, 1, 0, 0, 0⟩ ⟨[]⟩ "http://example.org/vs" "1" [] =
        .error .notFoundError ∧
    (ConceptMaps.add_mappings ⟨[sampleMap]⟩ "http://example.org/map" "1" [] =
        .ok (ConceptMaps.withConceptMaps ⟨[sampleMap]⟩ sampleMap) ∧
      sampleMap.metadata = sampleMap.metadata ∧
      ∃ gs, sampleMap.groups = sampleMap.groups ++ gs) ∧
    (ValueSets.add_values ⟨2018, 1, 1, 0, 0, 0⟩ ⟨[sampleValueSet]⟩
          "http://example.org/vs" "1" [] =
        .ok (ValueSets.withValueSets ⟨[sampleValueSet]⟩
          (add_values_to_value_set ⟨2018, 1, 1, 0, 0, 0⟩ sampleValueSet [])) ∧
      (add_values_to_value_set ⟨2018, 1, 1, 0, 0, 0⟩ sampleValueSet []).metadata =
        sampleValueSet.metadata ∧
      ∃ incs, (add_values_to_value_set ⟨2018, 1, 1, 0, 0, 0⟩ sampleValueSet []).compose =
        sampleValueSet.compose ++ incs) :=
  ⟨C5_add_requires_existing_artifact.1 ⟨[]⟩ "http://example.org/map" "1" [] rfl,
   C5_add_requires_existing_artifact.2.1 ⟨2018, 1, 1, 0, 0, 0⟩ ⟨[]⟩
      "http://example.org/vs" "1" [] rfl,
   C5_add_requires_existing_artifact.2.2.1 ⟨[sampleMap]⟩ "http://example.org/map" "1"
      [] sampleMap sampleMap rfl rfl,
   C5_add_requires_existing_artifact.2.2.2 ⟨2018, 1, 1, 0, 0, 0⟩ ⟨[sampleValueSet]⟩
      "http://example.org/vs" "1" [] sampleValueSet rfl⟩

/-- Claim C6 as amended: `with_new_map` and `with_new_value_set` perform no
duplicate check — they never raise DuplicateArtifactError; the merge is
last-writer-wins at artifact granularity, so the returned store holds the
prior artifacts minus any with the new identity, plus the freshly built
artifact at the end. -/
theorem C6_with_new_replaces_existing :
    (∀ (s : ConceptMaps) (url version source target : String) (exp : Bool)
        (ms : List MappingTuple),
      s.with_new_map url version source target exp ms ≠
        .error .duplicateArtifactError) ∧
    (∀ (s : ConceptMaps) (url version source target : String) (exp : Bool)
        (ms : List MappingTuple) (s' : ConceptMaps),
      s.with_new_map url version source target exp ms = .ok s' →
      ∃ cm, cm.url = url ∧ cm.version = version ∧
        s'.maps =
          s.maps.filter (fun m => !(m.url == url && m.version == version)) ++ [cm]) ∧
    (∀ (now : Timestamp) (s : ValueSets) (url version : String) (exp : Bool)
        (values : List (String × String)),
      ∃ vs, vs.url = url ∧ vs.version = version ∧
        (ValueSets.with_new_value_set now s url version exp values).valueSets =
          s.valueSets.filter (fun v => !(v.url == url && v.version == version)) ++ [vs]) := by
  refine ⟨?_, ?_, ?_⟩
  · intro s url version source target exp ms h
    rw [ConceptMaps.with_new_map] at h
    cases hm : add_mappings_to_map (newConceptMap url version source target exp) ms with
    | error c => rw [hm] at h; exact absurd h (by simp)
    | ok cm => rw [hm] at h; exact absurd h (by simp)
  · intro s url version source target exp ms s' h
    rw [ConceptMaps.with_new_map] at h
    cases hm : add_mappings_to_map (newConceptMap url version source target exp) ms with
    | error c => rw [hm] at h; exact absurd h (by simp)
    | ok cm =>
      rw [hm] at h
      injection h with h
      subst h
      obtain ⟨gs, -, rfl⟩ := add_mappings_to_map_ok hm
      exact ⟨_, rfl, rfl, rfl⟩
  · intro now s url version exp values
    exact ⟨add_values_to_value_set now (newValueSet url version exp) values,
      rfl, rfl, rfl⟩

/-- Claim C6 amended-theorem witness: applied on stores that already hold
the identity being re-added, with the success hypothesis discharged
concretely. -/
theorem C6_witness :
    ConceptMaps.with_new_map ⟨[sampleMap]⟩ "http://example.org/map" "1"
        "http://example.org/a" "http://example.org/b" true [] ≠
      .error .duplicateArtifactError ∧
    (∃ cm, cm.url = "http://example.org/map" ∧ cm.version = "1" ∧
      (ConceptMaps.withConceptMaps ⟨[sampleMap]⟩
          (newConceptMap "http://example.org/map" "1" "http://example.org/a"
            "http://example.org/b" true)).maps =
        ([sampleMap].filter
          (fun m => !(m.url == "http://example.org/map" && m.version == "1"))) ++ [cm]) ∧
    (∃ vs, vs.url = "http://example.org/vs" ∧ vs.version = "1" ∧
      (ValueSets.with_new_value_set ⟨2018, 1, 1, 0, 0, 0⟩ ⟨[sampleValueSet]⟩
          "http://example.org/vs" "1" true []).valueSets =
        ([sampleValueSet].filter
          (fun v => !(v.url == "http://example.org/vs" && v.version == "1"))) ++ [vs]) :=
  ⟨C6_with_new_replaces_existing.1 ⟨[sampleMap]⟩ "http://example.org/map" "1"
      "http://example.org/a" "http://example.org/b" true [],
   C6_with_new_replaces_existing.2.1 ⟨[sampleMap]⟩ "http://example.org/map" "1"
      "http://example.org/a" "http://example.org/b" true [] _ rfl,
   C6_with_new_replaces_existing.2.2 ⟨2018, 1, 1, 0, 0, 0⟩ ⟨[sampleValueSet]⟩
      "http://example.org/vs" "1" true []⟩

/-- Claim C8: the mutating operations never alter the receiver (stores are
pure values here, as the spec's immutability invariant demands of the
modelled collaborator); the returned store's content is the union of the
prior content and the newly added content — exactly for `with_new_*` on a
fresh identity, as a multiset for `add_*` on an existing one. -/
theorem C8_new_store_is_union :
    (∀ (s : ConceptMaps) (url version source target : String) (exp : Bool)
        (ms : List MappingTuple) (s' : ConceptMaps),
      (∀ m ∈ s.maps, ¬(m.url = url ∧ m.version = version)) →
      s.with_new_map url version source target exp ms = .ok s' →
      ∃ cm, s'.maps = s.maps ++ [cm] ∧
        s'.get_maps = s.get_maps ++ [cm.metadata] ∧
        s'.getMappings = s.getMappings ++ cm.rows) ∧
    (∀ (now : Timestamp) (s : ValueSets) (url version : String) (exp : Bool)
        (values : List (String × String)),
      (∀ v ∈ s.valueSets, ¬(v.url = url ∧ v.version = version)) →
      ∃ vs, (ValueSets.with_new_value_set now s url version exp values).valueSets =
          s.valueSets ++ [vs] ∧
        (ValueSets.with_new_value_set now s url version exp values).getValues =
          s.getValues ++ vs.rows) ∧
    (∀ (s : ConceptMaps) (url version : String) (ms : List MappingTuple)
        (cm cm' : ConceptMap) (s' : ConceptMaps),
      s.maps.filter (fun m => m.url == url && m.version == version) = [cm] →
      add_mappings_to_map cm ms = .ok cm' →
      s.add_mappings url version ms = .ok s' →
      ∃ gs, cm'.groups = cm.groups ++ gs ∧
        List.Perm s'.getMappings (s.getMappings ++ groupsRows url version gs)) ∧
    (∀ (now : Timestamp) (s : ValueSets) (url version : String)
        (values : List (String × String)) (vs : ValueSet) (s' : ValueSets),
      s.valueSets.filter (fun v => v.url == url && v.version == version) = [vs] →
      ValueSets.add_values now s url version values = .ok s' →
      ∃ incs, (add_values_to_value_set now vs values).compose = vs.compose ++ incs ∧
        List.Perm s'.getValues (s.getValues ++ inclusionRows url version incs)) := by
  refine ⟨?_, ?_, ?_, ?_⟩
  · intro s url version source target exp ms s' hfresh h
    rw [ConceptMaps.with_new_map] at h
    cases hm : add_mappings_to_map (newConceptMap url version source target exp) ms with
    | error c => rw [hm] at h; exact absurd h (by simp)
    | ok cm =>
      rw [hm] at h
      injection h with h
      subst h
      obtain ⟨gs, -, rfl⟩ := add_mappings_to_map_ok hm
      have hfilter :
          s.maps.filter (fun m => !(m.url == url && m.version == version)) = s.maps := by
        rw [List.filter_eq_self]
        intro m hmem
        have hne := hfresh m hmem
        simp only [Bool.not_eq_true', Bool.and_eq_false_iff, beq_eq_false_iff_ne, ne_eq]
        by_cases h1 : m.url = url
        · exact Or.inr fun h2 => hne ⟨h1, h2⟩
        · exact Or.inl h1
      have hmaps : (ConceptMaps.withConceptMaps s
          { newConceptMap url version source target exp with
            groups := (newConceptMap url version source target exp).groups ++ gs }).maps =
          s.maps ++ [{ newConceptMap url version source target exp with
            groups := (newConceptMap url version source target exp).groups ++ gs }] := by
        rw [ConceptMaps.withConceptMaps]
        have h2 := hfilter
        exact congrArg (· ++ _) h2
      refine ⟨_, hmaps, ?_, ?_⟩
      · rw [ConceptMaps.get_maps, ConceptMaps.get_maps, hmaps, List.map_append]
        rfl
      · rw [ConceptMaps.getMappings, ConceptMaps.getMappings, hmaps, List.flatMap_append]
        simp
  · intro now s url version exp values hfresh
    have hfilter :
        s.valueSets.filter (fun v => !(v.url == url && v.version == version)) =
          s.valueSets := by
      rw [List.filter_eq_self]
      intro v hmem
      have hne := hfresh v hmem
      simp only [Bool.not_eq_true', Bool.and_eq_false_iff, beq_eq_false_iff_ne, ne_eq]
      by_cases h1 : v.url = url
      · exact Or.inr fun h2 => hne ⟨h1, h2⟩
      · exact Or.inl h1
    have hsets : (ValueSets.with_new_value_set now s url version exp values).valueSets =
        s.valueSets ++ [add_values_to_value_set now (newValueSet url version exp) values] := by
      rw [ValueSets.with_new_value_set, ValueSets.withValueSets]
      exact congrArg (· ++ _) hfilter
    refine ⟨_, hsets, ?_⟩
    rw [ValueSets.getValues, ValueSets.getValues, hsets, List.flatMap_append]
    simp
  · intro s url version ms cm cm' s' hfilter hm hcall
    have hget : s.getConceptMap url version = .ok cm := by
      rw [ConceptMaps.getConceptMap, find_eq_of_filter_singleton hfilter]
    have hstep : s.add_mappings url version ms =
        match add_mappings_to_map cm ms with
        | .error c => .error (.invalidEquivalenceCode c)
        | .ok cm2 => .ok (s.withConceptMaps cm2) := by
      rw [ConceptMaps.add_mappings, hget]
    rw [hstep, hm] at hcall
    injection hcall with hcall
    subst hcall
    have hcm_mem : cm ∈ s.maps.filter (fun m => m.url == url && m.version == version) := by
      rw [hfilter]
      exact List.mem_singleton.mpr rfl
    have hpred := List.of_mem_filter hcm_mem
    simp only [Bool.and_eq_true, beq_iff_eq] at hpred
    obtain ⟨hurl, hver⟩ := hpred
    obtain ⟨gs, -, rfl⟩ := add_mappings_to_map_ok hm
    refine ⟨gs, rfl, ?_⟩
    have hrows : ConceptMap.rows { cm with groups := cm.groups ++ gs } =
        ConceptMap.rows cm ++ groupsRows url version gs := by
      have h1 : ConceptMap.rows { cm with groups := cm.groups ++ gs } =
          ConceptMap.rows cm ++ groupsRows cm.url cm.version gs :=
        groupsRows_append cm.url cm.version cm.groups gs
      rw [h1, hurl, hver]
    have hsplit : (ConceptMaps.withConceptMaps s
        { cm with groups := cm.groups ++ gs }).getMappings =
        (s.maps.filter fun m => !(m.url == url && m.version == version)).flatMap
            ConceptMap.rows ++
          (ConceptMap.rows cm ++ groupsRows url version gs) := by
      rw [ConceptMaps.getMappings, ConceptMaps.withConceptMaps]
      rw [show (fun m : ConceptMap => !(m.url == cm.url && m.version == cm.version)) =
          (fun m : ConceptMap => !(m.url == url && m.version == version)) by
        funext m; rw [hurl, hver]]
      rw [List.flatMap_append]
      simp only [List.flatMap_cons, List.flatMap_nil, List.append_nil]
      rw [hrows]
    have hperm1 : List.Perm s.maps
        (cm :: s.maps.filter fun m => !(m.url == url && m.version == version)) :=
      perm_cons_filter_not hfilter
    have hperm2 : List.Perm s.getMappings
        (ConceptMap.rows cm ++
          (s.maps.filter fun m => !(m.url == url && m.version == version)).flatMap
            ConceptMap.rows) := by
      have h2 := hperm1.flatMap_right ConceptMap.rows
      simpa [ConceptMaps.getMappings] using h2
    rw [hsplit, ← List.append_assoc]
    exact (List.perm_append_comm.append_right _).trans (hperm2.symm.append_right _)
  · intro now s url version values vs s' hfilter hcall
    have hget : s.getValueSet url version = .ok vs := by
      rw [ValueSets.getValueSet, find_eq_of_filter_singleton hfilter]
    have hstep : ValueSets.add_values now s url version values =
        .ok (s.withValueSets (add_values_to_value_set now vs values)) := by
      rw [ValueSets.add_values, hget]
    rw [hstep] at hcall
    injection hcall with hcall
    subst hcall
    have hvs_mem : vs ∈ s.valueSets.filter (fun v => v.url == url && v.version == version) := by
      rw [hfilter]
      exact List.mem_singleton.mpr rfl
    have hpred := List.of_mem_filter hvs_mem
    simp only [Bool.and_eq_true, beq_iff_eq] at hpred
    obtain ⟨hurl, hver⟩ := hpred
    refine ⟨_, rfl, ?_⟩
    have hrows : ValueSet.rows (add_values_to_value_set now vs values) =
        ValueSet.rows vs ++ inclusionRows url version ((groupPairs values).map
          (fun kv => { system := kv.1, version := now.isoformat, concepts := kv.2 })) := by
      have h1 : ValueSet.rows (add_values_to_value_set now vs values) =
          ValueSet.rows vs ++ inclusionRows vs.url vs.version ((groupPairs values).map
            (fun kv => { system := kv.1, version := now.isoformat, concepts := kv.2 })) :=
        inclusionRows_append vs.url vs.version vs.compose _
      rw [h1, hurl, hver]
    have hsplit : (ValueSets.withValueSets s (add_values_to_value_set now vs values)).getValues =
        (s.valueSets.filter fun v => !(v.url == url && v.version == version)).flatMap
            ValueSet.rows ++
          (ValueSet.rows vs ++ inclusionRows url version ((groupPairs values).map
            (fun kv => { system := kv.1, version := now.isoformat,
                         concepts := kv.2 }))) := by
      rw [ValueSets.getValues, ValueSets.withValueSets]
      rw [show (fun v : ValueSet =>
            !(v.url == (add_values_to_value_set now vs values).url &&
              v.version == (add_values_to_value_set now vs values).version)) =
          (fun v : ValueSet => !(v.url == url && v.version == version)) by
        funext v
        rw [show (add_values_to_value_set now vs values).url = vs.url from rfl,
          show (add_values_to_value_set now vs values).version = vs.version from rfl,
          hurl, hver]]
      rw [List.flatMap_append]
      simp only [List.flatMap_cons, List.flatMap_nil, List.append_nil]
      rw [hrows]
    have hperm1 : List.Perm s.valueSets
        (vs :: s.valueSets.filter fun v => !(v.url == url && v.version == version)) :=
      perm_cons_filter_not hfilter
    have hperm2 : List.Perm s.getValues
        (ValueSet.rows vs ++
          (s.valueSets.filter fun v => !(v.url == url && v.version == version)).flatMap
            ValueSet.rows) := by
      have h2 := hperm1.flatMap_right ValueSet.rows
      simpa [ValueSets.getValues] using h2
    rw [hsplit, ← List.append_assoc]
    exact (List.perm_append_comm.append_right _).trans (hperm2.symm.append_right _)

/-- Claim C8 witness: the union theorem applied to concrete stores — a
fresh map and value set added to empty stores, and content appended to the
sample artifacts — with every hypothesis discharged by evaluation. -/
theorem C8_witness :
    (∃ cm, (ConceptMaps.withConceptMaps ⟨[]⟩
          (newConceptMap "http://example.org/m" "1" "http://example.org/a"
            "http://example.org/b" true)).maps =
        (⟨[]⟩ : ConceptMaps).maps ++ [cm] ∧
      (ConceptMaps.withConceptMaps ⟨[]⟩
          (newConceptMap "http://example.org/m" "1" "http://example.org/a"
            "http://example.org/b" true)).get_maps =
        (⟨[]⟩ : ConceptMaps).get_maps ++ [cm.metadata] ∧
      (ConceptMaps.withConceptMaps ⟨[]⟩
          (newConceptMap "http://example.org/m" "1" "http://example.org/a"
            "http://example.org/b" true)).getMappings =
        (⟨[]⟩ : ConceptMaps).getMappings ++ cm.rows) ∧
    (∃ vs, (ValueSets.with_new_value_set ⟨2018, 1, 1, 0, 0, 0⟩ ⟨[]⟩ "http://example.org/v"
          "1" true []).valueSets = (⟨[]⟩ : ValueSets).valueSets ++ [vs] ∧
      (ValueSets.with_new_value_set ⟨2018, 1, 1, 0, 0, 0⟩ ⟨[]⟩ "http://example.org/v"
          "1" true []).getValues = (⟨[]⟩ : ValueSets).getValues ++ vs.rows) ∧
    (∃ gs, sampleMap.groups = sampleMap.groups ++ gs ∧
      List.Perm (ConceptMaps.withConceptMaps ⟨[sampleMap]⟩ sampleMap).getMappings
        ((⟨[sampleMap]⟩ : ConceptMaps).getMappings ++
          groupsRows "http://example.org/map" "1" gs)) ∧
    (∃ incs, (add_values_to_value_set ⟨2018, 1, 1, 0, 0, 0⟩ sampleValueSet []).compose =
        sampleValueSet.compose ++ incs ∧
      List.Perm (ValueSets.withValueSets ⟨[sampleValueSet]⟩
          (add_values_to_value_set ⟨2018, 1, 1, 0, 0, 0⟩ sampleValueSet [])).getValues
        ((⟨[sampleValueSet]⟩ : ValueSets).getValues ++
          inclusionRows "http://example.org/vs" "1" incs)) :=
  ⟨C8_new_store_is_union.1 ⟨[]⟩ "http://example.org/m" "1" "http://example.org/a"
      "http://example.org/b" true [] _
      (fun m hm => absurd hm (List.not_mem_nil m)) rfl,
   C8_new_store_is_union.2.1 ⟨2018, 1, 1, 0, 0, 0⟩ ⟨[]⟩ "http://example.org/v" "1" true []
      (fun v hv => absurd hv (List.not_mem_nil v)),
   C8_new_store_is_union.2.2.1 ⟨[sampleMap]⟩ "http://example.org/map" "1" [] sampleMap
      sampleMap _ rfl rfl rfl,
   C8_new_store_is_union.2.2.2 ⟨2018, 1, 1, 0, 0, 0⟩ ⟨[sampleValueSet]⟩
      "http://example.org/vs" "1" [] sampleValueSet _ rfl rfl⟩

/-- Claim C4: grouping partitions the tuples by `(source_system,
target_system)` key — each group holds exactly the tuples with its key, in
input order, duplicates kept — and is lossless: after building a map from
`ms0` and appending `ms1` to it, the tuples recoverable through
`get_mappings(url, version)` are a permutation of `ms0 ++ ms1`. -/
theorem C4_grouping_lossless :
    (∀ (ms : List MappingTuple) (k : String × String)
        (vs : List (String × String × Option String)),
      (k, vs) ∈ groupPairs (ms.map MappingTuple.keyed) →
      vs = ((ms.map MappingTuple.keyed).filter fun kv => kv.1 = k).map Prod.snd) ∧
    (∀ (url version source target : String) (exp : Bool) (ms0 ms1 : List MappingTuple)
        (s1 s2 : ConceptMaps),
      ConceptMaps.with_new_map ⟨[]⟩ url version source target exp ms0 = .ok s1 →
      s1.add_mappings url version ms1 = .ok s2 →
      List.Perm ((s2.get_mappings (some url) (some version)).map MappingRow.toTuple)
        (ms0 ++ ms1)) := by
  constructor
  · intro ms k vs h
    exact mem_groupPairs_eq_filter h
  · intro url version source target exp ms0 ms1 s1 s2 h1 h2
    rw [ConceptMaps.with_new_map] at h1
    cases hm0 : add_mappings_to_map (newConceptMap url version source target exp) ms0 with
    | error c => rw [hm0] at h1; exact absurd h1 (by simp)
    | ok cm1 =>
      rw [hm0] at h1
      injection h1 with h1
      subst h1
      obtain ⟨gs0, hbg0, hcm1⟩ := add_mappings_to_map_ok hm0
      have hurl1 : cm1.url = url := by rw [hcm1]; rfl
      have hver1 : cm1.version = version := by rw [hcm1]; rfl
      have hgroups1 : cm1.groups = gs0 := by rw [hcm1]; rfl
      have hget : (ConceptMaps.withConceptMaps ⟨[]⟩ cm1).getConceptMap url version =
          .ok cm1 := by
        rw [ConceptMaps.getConceptMap,
          show (ConceptMaps.withConceptMaps ⟨[]⟩ cm1).maps = [cm1] from rfl,
          List.find?_cons_of_pos [] (by simp [hurl1, hver1])]
      have hstep : (ConceptMaps.withConceptMaps ⟨[]⟩ cm1).add_mappings url version ms1 =
          match add_mappings_to_map cm1 ms1 with
          | .error c => .error (.invalidEquivalenceCode c)
          | .ok cm2 =>
            .ok ((ConceptMaps.withConceptMaps ⟨[]⟩ cm1).withConceptMaps cm2) := by
        rw [ConceptMaps.add_mappings, hget]
      rw [hstep] at h2
      cases hm1 : add_mappings_to_map cm1 ms1 with
      | error c => rw [hm1] at h2; exact absurd h2 (by simp)
      | ok cm2 =>
        rw [hm1] at h2
        injection h2 with h2
        subst h2
        obtain ⟨gs1, hbg1, hcm2⟩ := add_mappings_to_map_ok hm1
        have hurl2 : cm2.url = url := by rw [hcm2]; exact hurl1
        have hver2 : cm2.version = version := by rw [hcm2]; exact hver1
        have hgroups2 : cm2.groups = gs0 ++ gs1 := by
          rw [hcm2]
          show cm1.groups ++ gs1 = gs0 ++ gs1
          rw [hgroups1]
        have hs2maps :
            ((ConceptMaps.withConceptMaps ⟨[]⟩ cm1).withConceptMaps cm2).maps = [cm2] := by
          rw [ConceptMaps.withConceptMaps]
          rw [show (ConceptMaps.withConceptMaps ⟨[]⟩ cm1).maps = [cm1] from rfl]
          rw [List.filter_cons_of_neg (by simp [hurl1, hver1, hurl2, hver2])]
          rfl
        have hrowf : ∀ r ∈ cm2.rows, r.url = url ∧ r.version = version := by
          intro r hr
          have hfields := @mem_groupsRows cm2.url cm2.version cm2.groups r hr
          rw [hurl2, hver2] at hfields
          exact hfields
        have hgm : ConceptMaps.get_mappings
            ((ConceptMaps.withConceptMaps ⟨[]⟩ cm1).withConceptMaps cm2)
            (some url) (some version) = cm2.rows := by
          show ((((ConceptMaps.withConceptMaps ⟨[]⟩ cm1).withConceptMaps cm2).getMappings.filter
              (fun r => r.url == url)).filter (fun r => r.version == version)) = cm2.rows
          rw [ConceptMaps.getMappings, hs2maps]
          simp only [List.flatMap_cons, List.flatMap_nil, List.append_nil]
          rw [List.filter_eq_self.mpr
              (fun r hr => by simp [(hrowf r (List.mem_of_mem_filter hr)).2]),
            List.filter_eq_self.mpr (fun r hr => by simp [(hrowf r hr).1])]
        rw [hgm]
        have htu : cm2.rows.map MappingRow.toTuple =
            (joinGroups (groupPairs (ms0.map MappingTuple.keyed))).map MappingTuple.unkeyed ++
              (joinGroups (groupPairs (ms1.map MappingTuple.keyed))).map
                MappingTuple.unkeyed := by
          rw [show cm2.rows.map MappingRow.toTuple = cm2.groups.flatMap groupTuples from
              groupsRows_map_toTuple cm2.url cm2.version cm2.groups,
            hgroups2, List.flatMap_append, buildGroups_ok hbg0, buildGroups_ok hbg1]
        rw [htu]
        have hcomp : MappingTuple.unkeyed ∘ MappingTuple.keyed = id := funext fun m => rfl
        have hms0 : (ms0.map MappingTuple.keyed).map MappingTuple.unkeyed = ms0 := by
          rw [List.map_map, hcomp, List.map_id]
        have hms1 : (ms1.map MappingTuple.keyed).map MappingTuple.unkeyed = ms1 := by
          rw [List.map_map, hcomp, List.map_id]
        refine List.Perm.trans
          (List.Perm.append ((joinGroups_groupPairs _).map _)
            ((joinGroups_groupPairs _).map _)) ?_
        rw [hms0, hms1]

/-- Claim C4 witness: the theorem applied to concrete tuple lists — three
tuples with a repeated key for the partition statement, and a duplicated
tuple split across `with_new_map` and `add_mappings` for the multiset
statement — with all hypotheses discharged by evaluation. -/
theorem C4_witness :
    ([("A1", "B1", some "equivalent"), ("A2", "B2", none)] :
        List (String × String × Option String)) =
      (([⟨"sA", "A1", "sB", "B1", some "equivalent"⟩,
         ⟨"sC", "X1", "sD", "Y1", none⟩,
         ⟨"sA", "A2", "sB", "B2", none⟩] : List MappingTuple).map
            MappingTuple.keyed |>.filter
          (fun kv => kv.1 = ("sA", "sB"))).map Prod.snd ∧
    List.Perm
      ((ConceptMaps.get_mappings
          ⟨[{ url := "u", version := "1", source := "a", target := "b",
              experimental := some true,
              groups := [{ source := "sA", target := "sB",
                           elements := [{ code := "A1",
                                          targets := [{ code := "B1",
                                                        equivalence :=
                                                          some .equivalent }] }] },
                         { source := "sA", target := "sB",
                           elements := [{ code := "A1",
                                          targets := [{ code := "B1",
                                                        equivalence :=
                                                          some .equivalent }] }] }] }]⟩
          (some "u") (some "1")).map MappingRow.toTuple)
      ([⟨"sA", "A1", "sB", "B1", some "equivalent"⟩] ++
        [⟨"sA", "A1", "sB", "B1", some "equivalent"⟩]) :=
  ⟨C4_grouping_lossless.1
      [⟨"sA", "A1", "sB", "B1", some "equivalent"⟩,
       ⟨"sC", "X1", "sD", "Y1", none⟩,
       ⟨"sA", "A2", "sB", "B2", none⟩] ("sA", "sB")
      [("A1", "B1", some "equivalent"), ("A2", "B2", none)] (by decide),
   C4_grouping_lossless.2 "u" "1" "a" "b" true
      [⟨"sA", "A1", "sB", "B1", some "equivalent"⟩]
      [⟨"sA", "A1", "sB", "B1", some "equivalent"⟩]
      ⟨[{ url := "u", version := "1", source := "a", target := "b",
          experimental := some true,
          groups := [{ source := "sA", target := "sB",
                       elements := [{ code := "A1",
                                      targets := [{ code := "B1",
                                                    equivalence :=
                                                      some .equivalent }] }] }] }]⟩
      ⟨[{ url := "u", version := "1", source := "a", target := "b",
          experimental := some true,
          groups := [{ source := "sA", target := "sB",
                       elements := [{ code := "A1",
                                      targets := [{ code := "B1",
                                                    equivalence :=
                                                      some .equivalent }] }] },
                     { source := "sA", target := "sB",
                       elements := [{ code := "A1",
                                      targets := [{ code := "B1",
                                                    equivalence :=
                                                      some .equivalent }] }] }] }]⟩
      rfl rfl⟩

end Bunsen
